import Mathlib

/-!
# Verification of the PMZara conversation/task services

Shallow embedding of the PMZara repository's core services:

* `MemoryService` (src/src/services/memory-service.ts): memory upsert,
  retrieval with expiry, relevance filtering, conversation-context
  store/load round trip, conversation records.
* `ChatService` (src/src/services/chat-service.ts): `processMessage`
  orchestration with its top-level catch, `resetConversation`,
  the `recentTopics` update of `updateContextFromMessage`.
* `PromptService` (prompt-service source): `mergePrompts`, `buildPrompt`.
* Task update handling (src/src/components/TaskManager.tsx and the
  task API routes).

Conventions: JS `Date` values are modelled as natural numbers, JS
`undefined` as `Option.none`.  A nullable database column is an
`Option`.  Databases are lists of rows; Prisma `findFirst` is the first
match in list order, `orderBy: desc` is a stable descending sort.
JS truthiness on strings (`""` is falsy) and arrays is modelled
explicitly at each use site.
-/

namespace PMZara

/-! ## JS string primitives -/

/-- `Char.toLower` image of a string: model of JS `toLowerCase()`. -/
def jsToLower (s : String) : String :=
  String.mk (s.data.map Char.toLower)

/-- Is `p` a (list) prefix of `l`?  Boolean, executable. -/
def prefOf : List Char → List Char → Bool
  | [], _ => true
  | _ :: _, [] => false
  | a :: as, b :: bs => a = b && prefOf as bs

/-- Does `p` occur as a contiguous segment of `l`? -/
def segOf (p : List Char) : List Char → Bool
  | [] => prefOf p []
  | x :: xs => prefOf p (x :: xs) || segOf p xs

/-- Model of JS `s.includes(sub)` (argument order: haystack, needle). -/
def jsIncludes (s sub : String) : Bool :=
  segOf sub.data s.data

/-- JS whitespace characters relevant to `String.prototype.trim`. -/
def jsIsWs (c : Char) : Bool :=
  c = ' ' || c = '\t' || c = '\n' || c = '\r'

/-- Model of JS `s.trim()`. -/
def jsTrim (s : String) : String :=
  String.mk (((s.data.dropWhile jsIsWs).reverse.dropWhile jsIsWs).reverse)

/-- Model of JS `arr.slice(-5)` on a list: the suffix of (at most) the
last five elements. -/
def jsSliceLast5 (l : List String) : List String :=
  l.drop (l.length - 5)

/-! ## JSON codec for string arrays

`storeConversationContext` serializes `recentTopics` / `activeModules`
with `JSON.stringify` and `getConversationContext` reads them back with
`JSON.parse`.  We model the codec concretely: `JSON.stringify` of an
array of strings is `[` followed by comma separated `"`-delimited
strings with `\` escapes and a closing `]`; the parser is a
fuel-bounded recursive descent accepting exactly this shape, returning
`none` where `JSON.parse` would throw. -/

/-- Escape a raw character sequence for a JSON string literal
(quote and backslash escaped). -/
def jsonEsc : List Char → List Char
  | [] => []
  | c :: cs => if c = '"' || c = '\\' then '\\' :: c :: jsonEsc cs else c :: jsonEsc cs

/-- JSON encoding of a single string (with surrounding quotes). -/
def jsonEncStr (s : String) : List Char :=
  '"' :: (jsonEsc s.data ++ ['"'])

/-- Body of an encoded array: encoded strings joined by `,`. -/
def jsonEncItems : List String → List Char
  | [] => []
  | [s] => jsonEncStr s
  | s :: s' :: rest => jsonEncStr s ++ ',' :: jsonEncItems (s' :: rest)

/-- Model of `JSON.stringify` on an array of strings. -/
def jsonStringifyList (l : List String) : String :=
  String.mk ('[' :: (jsonEncItems l ++ [']']))

/-- Scan the body of a JSON string literal up to its closing quote,
undoing escapes; returns the decoded characters and the rest of the
input. -/
def jsonScanStr : List Char → Option (List Char × List Char)
  | [] => none
  | c :: rest =>
      if c = '"' then some ([], rest)
      else if c = '\\' then
        match rest with
        | [] => none
        | c2 :: rest2 =>
            match jsonScanStr rest2 with
            | some (cs, rem) => some (c2 :: cs, rem)
            | none => none
      else
        match jsonScanStr rest with
        | some (cs, rem) => some (c :: cs, rem)
        | none => none

/-- Fuel-bounded parse of a comma separated sequence of JSON strings
terminated by `]` at end of input. -/
def jsonParseItems : Nat → List Char → Option (List String)
  | 0, _ => none
  | fuel + 1, input =>
      match input with
      | [] => none
      | c :: rest =>
          if c = '"' then
            match jsonScanStr rest with
            | some (cs, rem) =>
                match rem with
                | [] => none
                | r :: rem' =>
                    if r = ']' then (if rem' = [] then some [String.mk cs] else none)
                    else if r = ',' then
                      match jsonParseItems fuel rem' with
                      | some tl => some (String.mk cs :: tl)
                      | none => none
                    else none
            | none => none
          else none

/-- Model of `JSON.parse` specialised to arrays of strings: any input
that is not such an array yields `none` (a thrown `SyntaxError` in JS,
caught where the repository wraps the parse in try/catch). -/
def jsonParseList (s : String) : Option (List String) :=
  match s.data with
  | [] => none
  | c :: rest =>
      if c = '[' then
        if rest = [']'] then some []
        else jsonParseItems rest.length rest
      else none

/-! ## Data model (prisma rows and the conversation context) -/

/-- A row of the `Memory` table. -/
structure Memory where
  id : Nat
  userId : String
  key : String
  value : String
  type : String
  expiresAt : Option Nat
  createdAt : Nat
  updatedAt : Nat
deriving Repr, DecidableEq

/-- A row of the `Conversation` table (an appended chat message). -/
structure ConversationRecord where
  id : Nat
  userId : String
  content : String
  metadata : Option String
  timestamp : Nat
deriving Repr, DecidableEq

/-- `ConversationContext` from src/src/types/index.ts; the `mood` and
`energy` unions are carried as strings, as the services do
(`currentMood.value as any`). -/
structure ConversationContext where
  userId : String
  currentTask : Option String := none
  mood : Option String := none
  energy : Option String := none
  recentTopics : Option (List String) := none
  activeModules : Option (List String) := none
deriving Repr, DecidableEq

/-- Database plus id supply and clock.  Each service call that takes a
timestamp reads `clock` and advances it, so successive `new Date()`
values are strictly increasing. -/
structure World where
  memories : List Memory
  conversations : List ConversationRecord
  nextId : Nat
  clock : Nat
deriving Repr, DecidableEq

/-- The `(userId, key, type)` triple of a memory row. -/
def tripOf (m : Memory) : String × String × String :=
  (m.userId, m.key, m.type)

/-- The `where` clause of `storeMemory`'s `findFirst`. -/
def tripleMatch (userId key type : String) (m : Memory) : Bool :=
  m.userId == userId && m.key == key && m.type == type

/-- JS truthiness of an optional string (`undefined` and `""` falsy). -/
def truthyStr (o : Option String) : Bool :=
  o.getD "" != ""

/-- Truthiness of `x && x.length > 0` on an optional array. -/
def truthyList (o : Option (List String)) : Bool :=
  !(o.getD []).isEmpty

/-! ## MemoryService -/

/-- `MemoryService.storeMemory`: find any row matching the triple
(`findFirst`, list order, no liveness check); update it in place if
found, else insert.  Prisma semantics: in the update branch a JS
`undefined` `expiresAt` leaves the column unchanged, while `create`
stores null for it. -/
def storeMemory (w : World) (userId key value : String)
    (type : String := "general") (expiresAt : Option Nat := none) : Memory × World :=
  match (w.memories.filter (tripleMatch userId key type)).head? with
  | some existing =>
      let newExp := fun (old : Option Nat) =>
        match expiresAt with
        | some e => some e
        | none => old
      let updated : Memory :=
        { existing with value := value, expiresAt := newExp existing.expiresAt,
                        updatedAt := w.clock }
      (updated,
       { w with
          memories := w.memories.map fun m =>
            if m.id = existing.id then
              { m with value := value, expiresAt := newExp m.expiresAt, updatedAt := w.clock }
            else m,
          clock := w.clock + 1 })
  | none =>
      let row : Memory :=
        { id := w.nextId, userId := userId, key := key, value := value, type := type,
          expiresAt := expiresAt, createdAt := w.clock, updatedAt := w.clock }
      (row, { w with memories := w.memories ++ [row],
                     nextId := w.nextId + 1, clock := w.clock + 1 })

/-- `MemoryService.deleteMemory` (`prisma.memory.delete` by id). -/
def deleteMemory (w : World) (memoryId : Nat) : World :=
  { w with memories := w.memories.filter fun r => r.id ≠ memoryId }

/-- Stable-enough insertion step of a descending sort on `updatedAt`
(Prisma leaves the relative order of ties unspecified). -/
def insertUpdatedDesc (m : Memory) : List Memory → List Memory
  | [] => [m]
  | x :: xs => if x.updatedAt < m.updatedAt then m :: x :: xs else x :: insertUpdatedDesc m xs

/-- `orderBy: { updatedAt: 'desc' }`. -/
def sortByUpdatedDesc (l : List Memory) : List Memory :=
  l.foldr insertUpdatedDesc []

/-- The `where` clause of `getMemory` (`type` only filtered when given). -/
def memMatch (userId key : String) (type : Option String) (m : Memory) : Bool :=
  m.userId == userId && m.key == key &&
    (match type with | some ty => m.type == ty | none => true)

/-- `MemoryService.getMemory`: most recently updated match; an expired
match is deleted as a side effect and `null` returned instead. -/
def getMemory (w : World) (userId key : String)
    (type : Option String := none) : Option Memory × World :=
  match (sortByUpdatedDesc (w.memories.filter (memMatch userId key type))).head? with
  | some m =>
      match m.expiresAt with
      | some e => if e < w.clock then (none, deleteMemory w m.id) else (some m, w)
      | none => (some m, w)
  | none => (none, w)

/-- The liveness condition of `getRelevantMemories`'s `findMany`:
`expiresAt` null or strictly greater than now. -/
def liveAt (now : Nat) (m : Memory) : Bool :=
  match m.expiresAt with
  | none => true
  | some e => now < e

/-- The recency fetch of `getRelevantMemories`: the `limit` most
recently updated non-expired memories of the user. -/
def fetchRecentLive (w : World) (userId : String) (limit : Nat) : List Memory :=
  (sortByUpdatedDesc (w.memories.filter
    fun m => m.userId == userId && liveAt w.clock m)).take limit

/-- Fallthrough case of the relevance filter: generic type tags. -/
def memRelevantGeneric (m : Memory) : Bool :=
  m.type == "general" || m.type == "conversation"

/-- Recent-topics case of the relevance filter (with its fallthrough). -/
def memRelevantTopics (context : ConversationContext) (m : Memory) : Bool :=
  match context.recentTopics with
  | some topics =>
      if 0 < topics.length then
        topics.any fun topic => jsIncludes (jsToLower m.value) (jsToLower topic)
      else memRelevantGeneric m
  | none => memRelevantGeneric m

/-- Active-modules case of the relevance filter (with its fallthrough).
Note that when `activeModules` is a non-empty list the filter `return`s
this check's result directly: the later conditions are not consulted. -/
def memRelevantModules (context : ConversationContext) (m : Memory) : Bool :=
  match context.activeModules with
  | some mods =>
      if 0 < mods.length then
        mods.any fun md => jsIncludes m.key md || jsIncludes (jsToLower m.value) (jsToLower md)
      else memRelevantTopics context m
  | none => memRelevantTopics context m

/-- The relevance filter of `MemoryService.getRelevantMemories`,
exactly as the source cascades. -/
def memRelevant (context : ConversationContext) (m : Memory) : Bool :=
  if truthyStr context.currentTask &&
      (jsIncludes m.key "task" ||
       jsIncludes (jsToLower m.value) (jsToLower (context.currentTask.getD ""))) then
    true
  else memRelevantModules context m

/-- `MemoryService.getRelevantMemories`. -/
def getRelevantMemories (w : World) (userId : String)
    (context : ConversationContext) (limit : Nat := 10) : List Memory :=
  ((fetchRecentLive w userId limit).filter (memRelevant context)).take limit

/-- `MemoryService.storeConversation` (append one immutable record). -/
def storeConversation (w : World) (userId content : String)
    (metadata : Option String := none) : World :=
  { w with
      conversations := w.conversations ++
        [{ id := w.nextId, userId := userId, content := content,
           metadata := metadata, timestamp := w.clock }],
      nextId := w.nextId + 1, clock := w.clock + 1 }

/-- One guarded write of `storeConversationContext`: the source's
`if (field) await this.storeMemory(userId, key, value, 'conversation')`. -/
def condStoreStep (userId key : String) (cond : Bool) (value : String) (w : World) : World :=
  if cond then (storeMemory w userId key value "conversation").2 else w

/-- `MemoryService.storeConversationContext`: one `storeMemory` per
populated (JS-truthy) field, all under type `"conversation"`; the two
list fields are serialized with `JSON.stringify`. -/
def storeConversationContext (w : World) (userId : String)
    (context : ConversationContext) : World :=
  let w1 := condStoreStep userId "current_task" (truthyStr context.currentTask)
    (context.currentTask.getD "") w
  let w2 := condStoreStep userId "current_mood" (truthyStr context.mood)
    (context.mood.getD "") w1
  let w3 := condStoreStep userId "current_energy" (truthyStr context.energy)
    (context.energy.getD "") w2
  let w4 := condStoreStep userId "recent_topics" (truthyList context.recentTopics)
    (jsonStringifyList (context.recentTopics.getD [])) w3
  let w5 := condStoreStep userId "active_modules" (truthyList context.activeModules)
    (jsonStringifyList (context.activeModules.getD [])) w4
  w5

/-- `MemoryService.getConversationContext`: read back the five
well-known keys; a JSON parse failure on a list field is logged and the
field left absent. -/
def getConversationContext (w : World) (userId : String) :
    ConversationContext × World :=
  let c0 : ConversationContext := { userId := userId }
  let p1 := getMemory w userId "current_task" (some "conversation")
  let c1 := match p1.1 with
    | some m => { c0 with currentTask := some m.value }
    | none => c0
  let p2 := getMemory p1.2 userId "current_mood" (some "conversation")
  let c2 := match p2.1 with
    | some m => { c1 with mood := some m.value }
    | none => c1
  let p3 := getMemory p2.2 userId "current_energy" (some "conversation")
  let c3 := match p3.1 with
    | some m => { c2 with energy := some m.value }
    | none => c2
  let p4 := getMemory p3.2 userId "recent_topics" (some "conversation")
  let c4 := match p4.1 with
    | some m =>
        match jsonParseList m.value with
        | some l => { c3 with recentTopics := some l }
        | none => c3
    | none => c3
  let p5 := getMemory p4.2 userId "active_modules" (some "conversation")
  let c5 := match p5.1 with
    | some m =>
        match jsonParseList m.value with
        | some l => { c4 with activeModules := some l }
        | none => c4
    | none => c4
  (c5, p5.2)

/-! ## ChatService.resetConversation -/

/-- The context `{ userId }` passed by `resetConversation`. -/
def emptyContext (userId : String) : ConversationContext :=
  { userId := userId }

/-- `ChatService.resetConversation`: fetch the relevant memories for
the bare context (default `limit` 10), keep the `"conversation"`-typed
ones, delete those by id, return `true`.  No conversation records are
touched. -/
def resetConversation (w : World) (userId : String) : Bool × World :=
  let memories := getRelevantMemories w userId (emptyContext userId) 10
  let conversationMemories := memories.filter fun m => m.type == "conversation"
  (true, conversationMemories.foldl (fun acc m => deleteMemory acc m.id) w)

/-! ## JS objects used as string-keyed maps

`modulePrompts` is a plain JS object.  We model it as an association
list in property-insertion order: assignment to an existing key keeps
its position, assignment to a fresh key appends, and object spread
`{...a, ...b}` re-assigns every property of `b` on top of a copy of
`a`.  `Object.entries` is the list itself.  A real JS object never
holds a duplicate key, which `keysNodup` expresses. -/

/-- Association list model of a JS string-to-string object. -/
abbrev ModMap := List (String × String)

/-- Property read (`obj[k]`). -/
def mapGet : ModMap → String → Option String
  | [], _ => none
  | p :: tl, k => if p.1 == k then some p.2 else mapGet tl k

/-- `k in obj`. -/
def containsKey (m : ModMap) (k : String) : Bool :=
  (mapGet m k).isSome

/-- Property assignment (`obj[k] = v`): overwrite in place, keeping the
property's position, or append a fresh property. -/
def mapSet : ModMap → String → String → ModMap
  | [], k, v => [(k, v)]
  | p :: tl, k, v => if p.1 == k then (p.1, v) :: tl else p :: mapSet tl k v

/-- Object spread `{...a, ...b}`. -/
def jsSpread (a b : ModMap) : ModMap :=
  b.foldl (fun acc p => mapSet acc p.1 p.2) a

/-- The property names, in order (`Object.keys`). -/
def mapKeys (m : ModMap) : List String :=
  m.map Prod.fst

/-- Keys pairwise distinct, as in every real JS object. -/
def keysNodup (m : ModMap) : Prop :=
  (mapKeys m).Nodup

instance (m : ModMap) : Decidable (keysNodup m) := by
  unfold keysNodup; infer_instance

/-- First-some choice on options (JS `??` for our purposes). -/
def optOr (x y : Option String) : Option String :=
  match x with
  | some v => some v
  | none => y

/-! ## PromptService -/

/-- The `style` sub-object of a `PromptOverride`; fields carried as
optional strings since the merge treats them as opaque properties. -/
structure StyleOverride where
  tone : Option String := none
  humour : Option String := none
  formality : Option String := none
deriving Repr, DecidableEq

/-- `PromptOverride` from src/src/types/index.ts. -/
structure PromptOverride where
  systemPrompt : Option String := none
  taskPrompt : Option String := none
  modulePrompts : Option ModMap := none
  style : Option StyleOverride := none
deriving Repr, DecidableEq

/-- The `Record<string, any>` handled by `mergePrompts`, with the four
property names the function touches. -/
structure PromptRecord where
  systemPrompt : Option String := none
  taskPrompt : Option String := none
  modulePrompts : Option ModMap := none
  style : Option StyleOverride := none
deriving Repr, DecidableEq

/-- Field-wise spread `{...d, ...o}` of two style objects. -/
def mergeStyle (d o : StyleOverride) : StyleOverride :=
  { tone := optOr o.tone d.tone,
    humour := optOr o.humour d.humour,
    formality := optOr o.formality d.formality }

/-- `PromptService.mergePrompts`: start from a copy of the defaults;
a truthy scalar override replaces the field (so an empty-string
override is skipped); `modulePrompts` and `style`, when present (any
object is truthy), are object spreads of default under override. -/
def mergePrompts (defaults : PromptRecord) (overrides : PromptOverride) : PromptRecord :=
  let m0 := defaults
  let m1 := if truthyStr overrides.systemPrompt then
      { m0 with systemPrompt := overrides.systemPrompt } else m0
  let m2 := if truthyStr overrides.taskPrompt then
      { m1 with taskPrompt := overrides.taskPrompt } else m1
  let m3 := match overrides.modulePrompts with
    | some mp => { m2 with modulePrompts := some (jsSpread (m2.modulePrompts.getD []) mp) }
    | none => m2
  let m4 := match overrides.style with
    | some st => { m3 with style := some (mergeStyle (m3.style.getD {}) st) }
    | none => m3
  m4

/-- Parsed JSON prompt file, restricted to the three recognized
content fields. -/
structure PromptFile where
  systemPrompt : Option String := none
  taskPrompt : Option String := none
  modulePrompt : Option String := none
deriving Repr, DecidableEq

/-- The prompts directory: `none` models a missing file. -/
abbrev FileStore := String → Option PromptFile

/-- `PromptService.loadPrompt`: throws (models as `Except.error`) when
the file does not exist. -/
def loadPrompt (fs : FileStore) (filePath : String) : Except String PromptFile :=
  match fs filePath with
  | some f => Except.ok f
  | none => Except.error ("Prompt file not found: " ++ filePath)

/-- The module-prompt resolution loop of `buildPrompt`: for each active
module, try `modules/<name>.json`; a missing file or a falsy
`modulePrompt` field is skipped (logged), never an error. -/
def resolveStepPrompt (acc : ModMap) (moduleName : String) : Option String → ModMap
  | some p => if p ≠ "" then mapSet acc moduleName p else acc
  | none => acc

/-- Handle one loaded (or missing) module file. -/
def resolveStepFile (acc : ModMap) (moduleName : String) : Option PromptFile → ModMap
  | some f => resolveStepPrompt acc moduleName f.modulePrompt
  | none => acc

/-- One iteration of the module-prompt resolution loop. -/
def resolveStep (fs : FileStore) (acc : ModMap) (moduleName : String) : ModMap :=
  resolveStepFile acc moduleName (fs ("modules/" ++ moduleName ++ ".json"))

/-- See `resolveStep`; the loop starts from the empty object. -/
def resolveModulePrompts (fs : FileStore) (activeModules : List String) : ModMap :=
  activeModules.foldl (resolveStep fs) []

/-- JS template-literal rendering of a possibly-undefined string. -/
def jsTemplate (o : Option String) : String :=
  o.getD "undefined"

/-- `PromptService.buildPrompt`.  Loads `system.json` and `tasks.json`
(failure propagates), resolves module prompts, merges the overrides if
provided, then joins the parts with blank lines: system block, task
block, one block per `modulePrompts` entry, a memory block only when
the digest is truthy after `trim()`, and the user block. -/
def buildPrompt (fs : FileStore) (userMessage : String)
    (context : ConversationContext) (memory : String := "")
    (overrides : Option PromptOverride := none) : Except String String :=
  match loadPrompt fs "system.json" with
  | Except.error e => Except.error e
  | Except.ok systemFile =>
    match loadPrompt fs "tasks.json" with
    | Except.error e => Except.error e
    | Except.ok taskFile =>
      let modulePrompts := resolveModulePrompts fs (context.activeModules.getD [])
      let defaultConfig : PromptRecord :=
        { systemPrompt := systemFile.systemPrompt,
          taskPrompt := taskFile.taskPrompt,
          modulePrompts := some modulePrompts }
      let finalConfig := match overrides with
        | some o => mergePrompts defaultConfig o
        | none => defaultConfig
      let promptParts :=
        ["[System] " ++ jsTemplate finalConfig.systemPrompt,
         "[System] " ++ jsTemplate finalConfig.taskPrompt]
        ++ (finalConfig.modulePrompts.getD []).map
            (fun p => "[System] Module: " ++ p.1 ++ " → " ++ p.2)
        ++ (if jsTrim memory ≠ "" then ["[System] Memory: " ++ memory] else [])
        ++ ["[User] " ++ userMessage]
      Except.ok (String.intercalate "\n\n" promptParts)

/-! ## ChatService.processMessage

The orchestrator is written against injected services
(`promptService`, `llmService`, `memoryService`); we embed it against a
record of effectful steps, each an `Except` (a JS rejection/throw).
`Date.now()` values are the environment's `startTime`/`endTime`. -/

/-- The model reply shape (`LLMResponse`), reduced to the consumed
fields `content` and `usage?.totalTokens`. -/
structure LLMReply where
  content : String
  totalTokens : Option Nat := none
deriving Repr, DecidableEq

/-- The `metadata` of a `processMessage` result. -/
structure ChatMetadata where
  promptLength : Nat
  responseTime : Nat
  tokensUsed : Option Nat := none
deriving Repr, DecidableEq

/-- The `processMessage` result. -/
structure ChatResult where
  response : String
  context : ConversationContext
  metadata : ChatMetadata
deriving Repr, DecidableEq

/-- Injected dependencies of `processMessage`, one field per awaited
step of the pipeline (the spec's failure points 1–6; the heuristic
context update is one of them). -/
structure ChatEnv where
  getCtx : Except String ConversationContext
  getRelevant : ConversationContext → Except String (List Memory)
  assemblePrompt : String → ConversationContext → String → Option PromptOverride →
    Except String String
  generateResponse : String → Except String LLMReply
  updateCtx : ConversationContext → String → String → Except String ConversationContext
  storeConv : String → Except String Unit
  storeCtx : ConversationContext → Except String Unit
  fmtDate : Nat → String
  startTime : Nat
  endTime : Nat

/-- `ChatService.formatMemoriesForPrompt`: `"key: value (date)"` joined
with `"; "`; empty list gives the empty digest. -/
def formatMemoriesForPrompt (fmtDate : Nat → String) (memories : List Memory) : String :=
  if memories.isEmpty then ""
  else String.intercalate "; "
    (memories.map fun m => m.key ++ ": " ++ m.value ++ " (" ++ fmtDate m.updatedAt ++ ")")

/-- The fixed apology of the catch block. -/
def apologyResponse : String :=
  "I'm sorry, I'm having trouble processing that right now. Could you try again?"

/-- The try-block of `processMessage` as an `Except` pipeline. -/
def runProcessMessage (env : ChatEnv) (userMessage : String)
    (overrides : Option PromptOverride) : Except String ChatResult := do
  let context ← env.getCtx
  let memories ← env.getRelevant context
  let memoryContext := formatMemoriesForPrompt env.fmtDate memories
  let prompt ← env.assemblePrompt userMessage context memoryContext overrides
  let llmResponse ← env.generateResponse prompt
  let updatedContext ← env.updateCtx context userMessage llmResponse.content
  let _ ← env.storeConv userMessage
  let _ ← env.storeConv llmResponse.content
  let _ ← env.storeCtx updatedContext
  Except.ok
    { response := llmResponse.content,
      context := updatedContext,
      metadata :=
        { promptLength := prompt.length,
          responseTime := env.endTime - env.startTime,
          tokensUsed := llmResponse.totalTokens } }

/-- `ChatService.processMessage`: the whole pipeline under one
top-level catch that degrades to the apology result. -/
def processMessage (env : ChatEnv) (userId userMessage : String)
    (overrides : Option PromptOverride := none) : ChatResult :=
  match runProcessMessage env userMessage overrides with
  | Except.ok r => r
  | Except.error _ =>
      { response := apologyResponse,
        context := { userId := userId },
        metadata :=
          { promptLength := 0,
            responseTime := env.endTime - env.startTime,
            tokensUsed := none } }

/-! ## The recentTopics update of updateContextFromMessage

Lines 226–233 of chat-service.ts: when `extractTopics` found at least
one topic, `recentTopics` becomes the old list (or `[]`) plus the new
topics, cut to the last five with `slice(-5)`; otherwise the field is
untouched.  The regex topic extraction itself is kept abstract: the
claims quantify over its possible outputs. -/

/-- The `recentTopics` update step, as a function of the extracted
topics of one message. -/
def updateRecentTopics (recentTopics : Option (List String))
    (topics : List String) : Option (List String) :=
  if 0 < topics.length then
    some (jsSliceLast5 (recentTopics.getD [] ++ topics))
  else recentTopics

/-! ## Task updates -/

/-- A row of the `Task` table. -/
structure Task where
  id : String
  userId : String
  title : String
  description : Option String := none
  category : String := "Personal"
  status : String := "pending"
  priority : String := "medium"
  dueDate : Option Nat := none
  completedAt : Option Nat := none
  createdAt : Nat := 0
  updatedAt : Nat := 0
deriving Repr, DecidableEq

/-- A body accepted by `updateTaskSchema`
(`createTaskSchema.partial().extend({status})`): the six optional
fields; anything else — in particular a client-sent `completedAt` — is
stripped by zod. -/
structure TaskUpdateBody where
  title : Option String := none
  description : Option String := none
  category : Option String := none
  priority : Option String := none
  dueDate : Option Nat := none
  status : Option String := none
deriving Repr, DecidableEq

/-- The `status` enum of `updateTaskSchema`. -/
def validStatus (s : String) : Bool :=
  s == "pending" || s == "in_progress" || s == "completed"

/-- The value checks of `updateTaskSchema` on present fields. -/
def validUpdateBody (b : TaskUpdateBody) : Bool :=
  (match b.title with | some t => 1 ≤ t.length | none => true) &&
  (match b.priority with
   | some p => p == "low" || p == "medium" || p == "high"
   | none => true) &&
  (match b.status with | some s => validStatus s | none => true)

/-- Modelled from the spec: the `PUT /api/tasks/[id]` route handler is
not under src/ (only tests/task-api.test.ts imports it).  Per the
spec's data model ("`completedAt` is set exactly when `status`
transitions to `completed`, cleared otherwise") and its end-to-end
scenario, the handler applies the validated fields to the task and, when
the update carries a `status`, recomputes `completedAt`: the current
time for `"completed"`, null for anything else. -/
def putTaskUpdate (t : Task) (b : TaskUpdateBody) (now : Nat) : Task :=
  { t with
      title := b.title.getD t.title,
      description := optOr b.description t.description,
      category := b.category.getD t.category,
      priority := b.priority.getD t.priority,
      dueDate := match b.dueDate with | some d => some d | none => t.dueDate,
      status := b.status.getD t.status,
      completedAt := match b.status with
        | some s => if s == "completed" then some now else none
        | none => t.completedAt,
      updatedAt := now }

/-- `TaskItem.handleStatusToggle` (TaskManager.tsx): flip between
completed and pending.  The client also sends a `completedAt` value,
but `updateTaskSchema` has no such field, so only `status` survives
validation. -/
def handleStatusToggleBody (t : Task) : TaskUpdateBody :=
  { status := some (if t.status == "completed" then "pending" else "completed") }

/-! ## Spec-side definitions (used to state refinement/correction
theorems; written from the specification's wording, not the source) -/

/-- Claim C2's relevance predicate as worded: a memory qualifies if it
matches the current task, or an active module, or a recent topic, or
carries a generic/conversational type tag — any one condition
sufficing, regardless of which context fields are populated. -/
def specRelevantAnyOf (context : ConversationContext) (m : Memory) : Bool :=
  (truthyStr context.currentTask &&
    (jsIncludes m.key "task" ||
     jsIncludes (jsToLower m.value) (jsToLower (context.currentTask.getD "")))) ||
  ((context.activeModules.getD []).any fun md =>
    jsIncludes m.key md || jsIncludes (jsToLower m.value) (jsToLower md)) ||
  ((context.recentTopics.getD []).any fun topic =>
    jsIncludes (jsToLower m.value) (jsToLower topic)) ||
  memRelevantGeneric m

/-- The module-prompt object carried by an optional override. -/
def overrideModMap (overrides : Option PromptOverride) : ModMap :=
  match overrides with
  | some o => o.modulePrompts.getD []
  | none => []

/-- The final prompt configuration `buildPrompt` assembles before
concatenation, given the two loaded files. -/
def buildPromptConfig (fs : FileStore) (context : ConversationContext)
    (overrides : Option PromptOverride) (f1 f2 : PromptFile) : PromptRecord :=
  let defaultConfig : PromptRecord :=
    { systemPrompt := f1.systemPrompt,
      taskPrompt := f2.taskPrompt,
      modulePrompts := some (resolveModulePrompts fs (context.activeModules.getD [])) }
  match overrides with
  | some o => mergePrompts defaultConfig o
  | none => defaultConfig

/-- A context with its falsy fields dropped: what survives one
store/load cycle of the conversation context. -/
def normalizeContext (u : String) (c : ConversationContext) : ConversationContext :=
  { userId := u,
    currentTask := if truthyStr c.currentTask then c.currentTask else none,
    mood := if truthyStr c.mood then c.mood else none,
    energy := if truthyStr c.energy then c.energy else none,
    recentTopics := if truthyList c.recentTopics then c.recentTopics else none,
    activeModules := if truthyList c.activeModules then c.activeModules else none }

/-! ## Invariant vocabulary for the memory table -/

/-- All `(userId, key, type)` triples of the rows pairwise distinct. -/
def distinctTriples (db : List Memory) : Prop :=
  db.Pairwise fun a b => tripOf a ≠ tripOf b

instance (db : List Memory) : Decidable (distinctTriples db) := by
  unfold distinctTriples; infer_instance

/-- The live (non-expired, per the `getRelevantMemories` check) rows of
a given triple. -/
def liveRowsOf (db : List Memory) (u k t : String) (now : Nat) : List Memory :=
  db.filter fun m => tripleMatch u k t m && liveAt now m

/-- One `storeMemory` call's arguments. -/
structure StoreCall where
  userId : String
  key : String
  value : String
  type : String
  expiresAt : Option Nat
deriving Repr, DecidableEq

/-- Replay a sequence of `storeMemory` calls. -/
def applyStoreCalls (w : World) (calls : List StoreCall) : World :=
  calls.foldl (fun acc c => (storeMemory acc c.userId c.key c.value c.type c.expiresAt).2) w

/-! ## Concrete fixtures used by witnesses and counterexamples -/

/-- A context whose only populated field is a non-matching active
module list. -/
def ctxC2 : ConversationContext :=
  { userId := "u", activeModules := some ["x"] }

/-- A conversation-typed memory matching none of the context overlaps. -/
def memC2 : Memory :=
  { id := 0, userId := "u", key := "k", value := "v", type := "conversation",
    expiresAt := none, createdAt := 0, updatedAt := 0 }

/-- A one-memory world for the C2 counterexample. -/
def worldC2 : World :=
  { memories := [memC2], conversations := [], nextId := 1, clock := 1 }

/-- A world with an expired conversation memory and one stored chat
message, for the reset counterexample. -/
def worldC1 : World :=
  { memories :=
      [{ id := 0, userId := "u", key := "k", value := "v",
         type := "conversation", expiresAt := some 0, createdAt := 0, updatedAt := 0 }],
    conversations :=
      [{ id := 1, userId := "u", content := "hello",
         metadata := none, timestamp := 0 }],
    nextId := 2, clock := 1 }

/-- An environment whose model call fails (gateway unreachable). -/
def envGatewayDown : ChatEnv :=
  { getCtx := Except.ok { userId := "u" },
    getRelevant := fun _ => Except.ok [],
    assemblePrompt := fun _ _ _ _ => Except.ok "P",
    generateResponse := fun _ => Except.error "ECONNREFUSED",
    updateCtx := fun c _ _ => Except.ok c,
    storeConv := fun _ => Except.ok (),
    storeCtx := fun _ => Except.ok (),
    fmtDate := fun _ => "1/1/2024",
    startTime := 100,
    endTime := 250 }

/-- A prompt directory holding only the two base files. -/
def fsC8 : FileStore := fun p =>
  if p = "system.json" then some { systemPrompt := some "S" }
  else if p = "tasks.json" then some { taskPrompt := some "T" }
  else none

/-- A concrete task fixture. -/
def taskFix : Task :=
  { id := "1", userId := "demo-user-123", title := "Test" }

/-- A world holding an expired row and a live row with the same triple
(the C6 counterexample), plus a world for the C10 witness. -/
def worldC6 : World :=
  { memories :=
      [{ id := 0, userId := "u", key := "k", value := "a", type := "general",
         expiresAt := some 5, createdAt := 0, updatedAt := 0 },
       { id := 1, userId := "u", key := "k", value := "b", type := "general",
         expiresAt := none, createdAt := 0, updatedAt := 0 }],
    conversations := [], nextId := 2, clock := 10 }

/-- A world whose single row is an expired match for the C10 witness. -/
def worldC10 : World :=
  { memories :=
      [{ id := 0, userId := "u", key := "k", value := "old",
         type := "general", expiresAt := some 1, createdAt := 0, updatedAt := 0 }],
    conversations := [], nextId := 5, clock := 10 }

/-- Default-config fixture for the merge witness (the spec's own
example). -/
def dFix : PromptRecord :=
  { systemPrompt := some "x", modulePrompts := some [("m1", "p1"), ("m2", "p2")] }

/-- Override fixture carrying one module-prompt replacement. -/
def oFix : PromptOverride :=
  { modulePrompts := some [("m1", "p1-new")] }

/-- An empty world for the round-trip witness. -/
def wFresh : World :=
  { memories := [], conversations := [], nextId := 0, clock := 0 }

/-- A context fixture mixing truthy, falsy and list-valued fields. -/
def cFix : ConversationContext :=
  { userId := "u", currentTask := some "report", mood := some "",
    recentTopics := some ["a", "b"] }

/-- A world already holding a conversation-context row (a stale mood). -/
def worldC9 : World :=
  { memories :=
      [{ id := 0, userId := "u", key := "current_mood", value := "happy",
         type := "conversation", expiresAt := none, createdAt := 0, updatedAt := 0 }],
    conversations := [], nextId := 1, clock := 1 }

/-! ## Helper theorems -/

theorem jsonScanStr_esc (cs rest : List Char) :
    jsonScanStr (jsonEsc cs ++ '"' :: rest) = some (cs, rest) := by
  induction cs with
  | nil => simp [jsonEsc, jsonScanStr.eq_def]
  | cons c cs ih =>
    by_cases hesc : c = '"' ∨ c = '\\'
    · have : jsonEsc (c :: cs) = '\\' :: c :: jsonEsc cs := by
        rcases hesc with h | h <;> simp [jsonEsc, h]
      rw [this, List.cons_append, jsonScanStr.eq_def]
      simp [ih]
    · push_neg at hesc
      have : jsonEsc (c :: cs) = c :: jsonEsc cs := by
        simp [jsonEsc, hesc.1, hesc.2]
      rw [this, List.cons_append, jsonScanStr.eq_def]
      simp [hesc.1, hesc.2, ih]

theorem jsonParseItems_enc (l : List String) (hne : l ≠ []) :
    ∀ fuel, l.length ≤ fuel →
      jsonParseItems fuel (jsonEncItems l ++ [']']) = some l := by
  induction l with
  | nil => exact absurd rfl hne
  | cons s tl ih =>
    intro fuel hfuel
    obtain ⟨f, rfl⟩ : ∃ f, fuel = f + 1 := by
      cases fuel with
      | zero => simp at hfuel
      | succ f => exact ⟨f, rfl⟩
    cases tl with
    | nil =>
      have harr : jsonEncItems [s] ++ [']'] = '"' :: (jsonEsc s.data ++ '"' :: [']']) := by
        simp [jsonEncItems, jsonEncStr]
      rw [harr]
      simp [jsonParseItems, jsonScanStr_esc]
    | cons s' tl' =>
      have harr : jsonEncItems (s :: s' :: tl') ++ [']'] =
          '"' :: (jsonEsc s.data ++ '"' :: (',' :: (jsonEncItems (s' :: tl') ++ [']']))) := by
        simp [jsonEncItems, jsonEncStr]
      rw [harr]
      have hrec := ih (by simp) f (by simpa [Nat.succ_le_succ_iff] using hfuel)
      simp [jsonParseItems, jsonScanStr_esc, hrec]

/-- Round trip of the JSON string-array codec: parsing an encoded list
recovers the list. -/
theorem jsonParseList_stringify (l : List String) :
    jsonParseList (jsonStringifyList l) = some l := by
  cases l with
  | nil => simp [jsonStringifyList, jsonParseList, jsonEncItems]
  | cons s tl =>
    have hne : jsonEncItems (s :: tl) ++ [']'] ≠ [']'] := by
      intro h
      have : ('"' :: (jsonEsc s.data ++ ['"'])).length ≤ 1 := by
        have := congrArg List.length h
        cases tl <;> simp_all [jsonEncItems, jsonEncStr]
      simp at this
    have hlen : (s :: tl).length ≤ (jsonEncItems (s :: tl) ++ [']']).length := by
      clear hne
      induction tl generalizing s with
      | nil => simp [jsonEncItems, jsonEncStr]
      | cons s' tl' ih =>
        have := ih s'
        simp only [jsonEncItems, jsonEncStr] at *
        simp only [List.length_cons, List.length_append] at *
        omega
    simp only [jsonStringifyList, jsonParseList]
    simp only [if_pos rfl, if_neg hne]
    exact jsonParseItems_enc (s :: tl) (by simp) _ hlen

theorem mapGet_set_self (m : ModMap) (k v : String) :
    mapGet (mapSet m k v) k = some v := by
  induction m with
  | nil => simp [mapSet, mapGet]
  | cons p tl ih =>
    by_cases h : p.1 = k
    · simp [mapSet, mapGet, h]
    · simp [mapSet, mapGet, h, ih]

theorem mapGet_set_ne (m : ModMap) (k v k' : String) (hne : k' ≠ k) :
    mapGet (mapSet m k v) k' = mapGet m k' := by
  induction m with
  | nil => simp [mapSet, mapGet, Ne.symm hne]
  | cons p tl ih =>
    by_cases h : p.1 = k
    · simp [mapSet, mapGet, h, Ne.symm hne, hne]
    · by_cases h' : p.1 = k'
      · simp [mapSet, mapGet, h, h', hne]
      · simp [mapSet, mapGet, h, h', ih]

theorem mapGet_eq_none_iff (m : ModMap) (k : String) :
    mapGet m k = none ↔ k ∉ mapKeys m := by
  induction m with
  | nil => simp [mapGet, mapKeys]
  | cons p tl ih =>
    by_cases h : p.1 = k
    · simp [mapGet, mapKeys, h]
    · simp [mapGet, mapKeys, h, ih, Ne.symm h]

theorem mapKeys_set (m : ModMap) (k v : String) :
    mapKeys (mapSet m k v) =
      if containsKey m k then mapKeys m else mapKeys m ++ [k] := by
  induction m with
  | nil => simp [mapSet, mapKeys, containsKey, mapGet]
  | cons p tl ih =>
    by_cases h : p.1 = k
    · simp [mapSet, mapKeys, containsKey, mapGet, h]
    · have hck : containsKey (p :: tl) k = containsKey tl k := by
        simp [containsKey, mapGet, h]
      have hstep : mapSet (p :: tl) k v = p :: mapSet tl k v := by
        simp [mapSet, h]
      have hkeys : mapKeys (p :: mapSet tl k v) = p.1 :: mapKeys (mapSet tl k v) := rfl
      rw [hstep, hkeys, ih, hck]
      cases hc : containsKey tl k with
      | true => simp [hc, mapKeys]
      | false => simp [hc, mapKeys]

theorem containsKey_set (m : ModMap) (k v x : String) :
    containsKey (mapSet m k v) x = if x = k then true else containsKey m x := by
  by_cases h : x = k
  · simp [containsKey, h, mapGet_set_self]
  · simp [containsKey, h, mapGet_set_ne m k v x h]

/-- Lookup through an object spread: a property of `b` wins, otherwise
the property of `a` shows through. -/
theorem mapGet_spread (b : ModMap) (hb : keysNodup b) (a : ModMap) (k : String) :
    mapGet (jsSpread a b) k = optOr (mapGet b k) (mapGet a k) := by
  induction b generalizing a with
  | nil => simp [jsSpread, mapGet, optOr]
  | cons q bs ih =>
    have hb' : (q.1 :: mapKeys bs).Nodup := hb
    have hq : q.1 ∉ mapKeys bs := (List.nodup_cons.mp hb').1
    have hbs : keysNodup bs := (List.nodup_cons.mp hb').2
    have hstep : jsSpread a (q :: bs) = jsSpread (mapSet a q.1 q.2) bs := rfl
    rw [hstep, ih hbs]
    by_cases hk : k = q.1
    · subst hk
      have h1 : mapGet bs q.1 = none := (mapGet_eq_none_iff bs q.1).mpr hq
      simp [h1, mapGet_set_self, mapGet, optOr]
    · rw [mapGet_set_ne a q.1 q.2 k hk]
      have hqk : (q.1 == k) = false := by
        rw [beq_eq_false_iff_ne]
        exact fun hcx => hk hcx.symm
      have h2 : mapGet (q :: bs) k = mapGet bs k := by
        simp [mapGet, hqk]
      rw [h2]

/-- Key order through an object spread: the keys of `a` in their order
(overridden values in place), then the fresh keys of `b` in theirs. -/
theorem mapKeys_spread (b : ModMap) (hb : keysNodup b) (a : ModMap) :
    mapKeys (jsSpread a b) =
      mapKeys a ++ (mapKeys b).filter (fun k => !containsKey a k) := by
  induction b generalizing a with
  | nil => simp [jsSpread, mapKeys]
  | cons q bs ih =>
    have hb' : (q.1 :: mapKeys bs).Nodup := hb
    have hq : q.1 ∉ mapKeys bs := (List.nodup_cons.mp hb').1
    have hbs : keysNodup bs := (List.nodup_cons.mp hb').2
    have hstep : jsSpread a (q :: bs) = jsSpread (mapSet a q.1 q.2) bs := rfl
    rw [hstep, ih hbs]
    have hfc : (mapKeys bs).filter (fun k => !containsKey (mapSet a q.1 q.2) k) =
        (mapKeys bs).filter (fun k => !containsKey a k) := by
      apply List.filter_congr
      intro x hx
      have hxq : x ≠ q.1 := by
        intro hcx
        subst hcx
        exact hq hx
      rw [containsKey_set, if_neg hxq]
    have hqbs : mapKeys (q :: bs) = q.1 :: mapKeys bs := rfl
    rw [hfc, mapKeys_set, hqbs, List.filter_cons]
    cases hc : containsKey a q.1 with
    | true => simp [hc]
    | false => simp [hc]

/-! ## Claim theorems -/

/-- C5: starting from a context whose `recentTopics` has at most five
entries, any sequence of `updateContextFromMessage` topic updates keeps
the list at five or fewer; each step with a non-empty extraction keeps
exactly the newest entries — the result is the suffix of old ++ new of
length `min 5 total`, so the oldest entries are dropped first. -/
theorem recentTopics_cap_invariant
    (start : Option (List String)) (hstart : (start.getD []).length ≤ 5)
    (updates : List (List String)) :
    ((updates.foldl updateRecentTopics start).getD []).length ≤ 5 ∧
    (∀ old topics, topics ≠ [] →
      updateRecentTopics old topics =
        some ((old.getD [] ++ topics).drop ((old.getD [] ++ topics).length - 5)) ∧
      jsSliceLast5 (old.getD [] ++ topics) <:+ (old.getD [] ++ topics) ∧
      (jsSliceLast5 (old.getD [] ++ topics)).length =
        min 5 ((old.getD []).length + topics.length)) := by
  constructor
  · have hstep : ∀ (s : Option (List String)) (t : List String),
        (s.getD []).length ≤ 5 → ((updateRecentTopics s t).getD []).length ≤ 5 := by
      intro s t hs
      unfold updateRecentTopics
      by_cases ht : 0 < t.length
      · simp only [ht, if_pos]
        simp [jsSliceLast5]
        omega
      · simpa [ht] using hs
    have main : ∀ (us : List (List String)) (s : Option (List String)),
        (s.getD []).length ≤ 5 → ((us.foldl updateRecentTopics s).getD []).length ≤ 5 := by
      intro us
      induction us with
      | nil => intro s h; simpa using h
      | cons u tl ih => intro s h; exact ih _ (hstep s u h)
    exact main updates start hstart
  · intro old topics ht
    have hlen : 0 < topics.length := List.length_pos.mpr ht
    refine ⟨by simp [updateRecentTopics, hlen, jsSliceLast5], ?_, ?_⟩
    · exact List.drop_suffix _ _
    · simp [jsSliceLast5]
      omega

/-- C3: a task update carrying a `status` sets `completedAt` to the
current timestamp exactly when that status is `"completed"` and clears
it to null otherwise; an update without `status` leaves it alone; the
checkbox toggle therefore stamps a pending/in-progress task and clears
a completed one. -/
theorem taskUpdate_completedAt (t : Task) (b : TaskUpdateBody) (now : Nat) :
    (∀ s, b.status = some s →
      (((putTaskUpdate t b now).completedAt ≠ none) ↔ s = "completed") ∧
      (s = "completed" → (putTaskUpdate t b now).completedAt = some now) ∧
      (s ≠ "completed" → (putTaskUpdate t b now).completedAt = none)) ∧
    (b.status = none → (putTaskUpdate t b now).completedAt = t.completedAt) ∧
    ((putTaskUpdate t (handleStatusToggleBody t) now).completedAt =
      if t.status == "completed" then none else some now) := by
  refine ⟨?_, ?_, ?_⟩
  · intro s hs
    by_cases hsc : s = "completed" <;> simp [putTaskUpdate, hs, hsc]
  · intro hs
    simp [putTaskUpdate, hs]
  · by_cases hts : t.status = "completed" <;>
      simp [putTaskUpdate, handleStatusToggleBody, hts]

/-- C3 witness: completing the fixture task stamps `completedAt`;
reverting clears it. -/
theorem taskUpdate_completedAt_witness :
    (putTaskUpdate taskFix { status := some "completed" } 7).completedAt = some 7 ∧
    (putTaskUpdate taskFix { status := some "pending" } 9).completedAt = none :=
  ⟨((taskUpdate_completedAt taskFix { status := some "completed" } 7).1 "completed"
      rfl).2.1 rfl,
   ((taskUpdate_completedAt taskFix { status := some "pending" } 9).1 "pending"
      rfl).2.2 (by decide)⟩

/-- C4: when any awaited step of the pipeline rejects, `processMessage`
swallows the error and returns the fixed apology string, a context
holding only the userId, zero `promptLength`, and a `responseTime`
computed from the clock. -/
theorem processMessage_degrades (env : ChatEnv) (userId userMessage : String)
    (overrides : Option PromptOverride) (e : String)
    (herr : runProcessMessage env userMessage overrides = Except.error e) :
    processMessage env userId userMessage overrides =
      { response := apologyResponse,
        context := { userId := userId },
        metadata := { promptLength := 0,
                      responseTime := env.endTime - env.startTime,
                      tokensUsed := none } } := by
  simp [processMessage, herr]

/-- C4 witness: with the model gateway unreachable the caller still
receives the apology result, not an exception, with responseTime
populated from the clock. -/
theorem processMessage_degrades_witness :
    processMessage envGatewayDown "u" "hi" none =
      { response := apologyResponse,
        context := { userId := "u" },
        metadata := { promptLength := 0, responseTime := 150, tokensUsed := none } } :=
  processMessage_degrades envGatewayDown "u" "hi" none "ECONNREFUSED" rfl

/-- C10: when the first `(userId, key, type)` match is an expired row,
`storeMemory` updates it in place — same id and createdAt, new value
and expiry, `updatedAt` bumped to now — inserting and deleting
nothing: the lookup never checks liveness. -/
theorem storeMemory_updates_expired_row (w : World) (u k v t : String) (e2 : Nat)
    (r : Memory) (d : Nat)
    (hfirst : (w.memories.filter (tripleMatch u k t)).head? = some r)
    (hexp : r.expiresAt = some d) (hpast : d < w.clock) :
    (storeMemory w u k v t (some e2)).1 =
      { r with value := v, expiresAt := some e2, updatedAt := w.clock } ∧
    (storeMemory w u k v t (some e2)).2.memories =
      w.memories.map (fun m => if m.id = r.id then
        { m with value := v, expiresAt := some e2, updatedAt := w.clock } else m) ∧
    (storeMemory w u k v t (some e2)).2.memories.length = w.memories.length := by
  unfold storeMemory
  rw [hfirst]
  exact ⟨rfl, rfl, by simp⟩

/-- C10 witness: the expired fixture row is revived in place. -/
theorem storeMemory_updates_expired_row_witness :
    (storeMemory worldC10 "u" "k" "new" "general" (some 99)).1 =
      { id := 0, userId := "u", key := "k", value := "new", type := "general",
        expiresAt := some 99, createdAt := 0, updatedAt := 10 } ∧
    (storeMemory worldC10 "u" "k" "new" "general" (some 99)).2.memories.length = 1 := by
  have h := storeMemory_updates_expired_row worldC10 "u" "k" "new" "general" 99
    { id := 0, userId := "u", key := "k", value := "old", type := "general",
      expiresAt := some 1, createdAt := 0, updatedAt := 0 } 1 (by decide) rfl (by decide)
  constructor
  · rw [h.1]
    rfl
  · rw [h.2.2]
    rfl

/-- C5 witness: a full five-topic context stays capped through two
further updates. -/
theorem recentTopics_cap_invariant_witness :
    (((some ["a", "b", "c", "d", "e"] : Option (List String)).getD []).length ≤ 5) ∧
    ((([["f"], ["g"]] : List (List String)).foldl updateRecentTopics
        (some ["a", "b", "c", "d", "e"])).getD []).length ≤ 5 :=
  ⟨by decide,
   (recentTopics_cap_invariant (some ["a", "b", "c", "d", "e"]) (by decide)
      [["f"], ["g"]]).1⟩

/-- The update branch of `storeMemory`, as an equation. -/
theorem storeMemory_update_eq (w : World) (u k v t : String) (e : Option Nat)
    (r : Memory) (hf : (w.memories.filter (tripleMatch u k t)).head? = some r) :
    (storeMemory w u k v t e).2.memories =
      w.memories.map fun m =>
        if m.id = r.id then
          { m with value := v,
                   expiresAt := match e with | some x => some x | none => m.expiresAt,
                   updatedAt := w.clock }
        else m := by
  unfold storeMemory
  rw [hf]
  rfl

/-- The insert branch of `storeMemory`, as an equation. -/
theorem storeMemory_create_eq (w : World) (u k v t : String) (e : Option Nat)
    (hf : (w.memories.filter (tripleMatch u k t)).head? = none) :
    (storeMemory w u k v t e).2.memories =
      w.memories ++
        [{ id := w.nextId, userId := u, key := k, value := v, type := t,
           expiresAt := e, createdAt := w.clock, updatedAt := w.clock }] := by
  unfold storeMemory
  rw [hf]

/-- A row failing the triple filter has a different triple. -/
theorem tripOf_ne_of_not_match (u k t : String) (m : Memory)
    (h : ¬ tripleMatch u k t m = true) : tripOf m ≠ (u, k, t) := by
  intro hc
  have h3 : m.userId = u ∧ m.key = k ∧ m.type = t := by
    simpa [tripOf, Prod.ext_iff] using hc
  simp [tripleMatch, h3.1, h3.2.1, h3.2.2] at h

/-- One `storeMemory` call preserves triple-distinctness: the update
branch rewrites non-triple fields in place, the insert branch adds a
triple that the `findFirst` just found absent. -/
theorem distinctTriples_storeMemory (w : World) (u k v t : String) (e : Option Nat)
    (h : distinctTriples w.memories) :
    distinctTriples (storeMemory w u k v t e).2.memories := by
  cases hf : (w.memories.filter (tripleMatch u k t)).head? with
  | some r =>
    rw [show (storeMemory w u k v t e).2.memories = _ from storeMemory_update_eq w u k v t e r hf]
    unfold distinctTriples at h ⊢
    rw [List.pairwise_map]
    apply h.imp
    intro a b hab
    have htrip : ∀ x : Memory, tripOf (if x.id = r.id then
        { x with value := v,
                 expiresAt := match e with | some y => some y | none => x.expiresAt,
                 updatedAt := w.clock }
        else x) = tripOf x := by
      intro x
      by_cases hx : x.id = r.id <;> simp [tripOf, hx]
    rw [htrip a, htrip b]
    exact hab
  | none =>
    rw [show (storeMemory w u k v t e).2.memories = _ from storeMemory_create_eq w u k v t e hf]
    unfold distinctTriples at h ⊢
    rw [List.pairwise_append]
    refine ⟨h, by simp, ?_⟩
    intro a ha b hb
    have hnil : w.memories.filter (tripleMatch u k t) = [] :=
      List.head?_eq_none_iff.mp hf
    have hna : ¬ tripleMatch u k t a = true :=
      List.filter_eq_nil_iff.mp hnil a ha
    have hb' : tripOf b = (u, k, t) := by
      simp only [List.mem_singleton] at hb
      subst hb
      rfl
    rw [hb']
    exact tripOf_ne_of_not_match u k t a hna

/-- Triple-distinct tables have at most one live row per triple. -/
theorem length_liveRowsOf_le_one (db : List Memory) (h : distinctTriples db)
    (u k t : String) (now : Nat) : (liveRowsOf db u k t now).length ≤ 1 := by
  induction db with
  | nil => simp [liveRowsOf]
  | cons m tl ih =>
    have h' := List.pairwise_cons.mp h
    unfold liveRowsOf at ih ⊢
    rw [List.filter_cons]
    by_cases hm : (tripleMatch u k t m && liveAt now m) = true
    · rw [if_pos hm]
      have hmt : tripOf m = (u, k, t) := by
        have h1 := (Bool.and_eq_true _ _).mp hm |>.1
        simp only [tripleMatch, Bool.and_eq_true, beq_iff_eq] at h1
        simp [tripOf, h1.1.1, h1.1.2, h1.2]
      have hnil : tl.filter (fun x => tripleMatch u k t x && liveAt now x) = [] := by
        rw [List.filter_eq_nil_iff]
        intro x hx hcx
        have hxt : tripOf x = (u, k, t) := by
          have h1 := (Bool.and_eq_true _ _).mp hcx |>.1
          simp only [tripleMatch, Bool.and_eq_true, beq_iff_eq] at h1
          simp [tripOf, h1.1.1, h1.1.2, h1.2]
        exact h'.1 x hx (hmt.trans hxt.symm)
      simp [hnil]
    · rw [if_neg hm]
      exact ih h'.2

/-- Triple-distinctness survives any sequence of `storeMemory` calls. -/
theorem distinctTriples_applyStoreCalls (calls : List StoreCall) (w : World)
    (h : distinctTriples w.memories) :
    distinctTriples (applyStoreCalls w calls).memories := by
  induction calls generalizing w with
  | nil => simpa [applyStoreCalls] using h
  | cons cl tl ih =>
    have hstep := distinctTriples_storeMemory w cl.userId cl.key cl.value cl.type cl.expiresAt h
    simpa [applyStoreCalls] using
      ih (storeMemory w cl.userId cl.key cl.value cl.type cl.expiresAt).2 hstep

/-- C6 (amended): if the table holds at most one row — live or expired —
per `(userId, key, type)` triple, then after any sequence of
`storeMemory` upserts it still does, and in particular at most one live
row per triple exists at any time. -/
theorem storeMemory_upsert_invariant (w : World) (calls : List StoreCall)
    (h : distinctTriples w.memories) :
    distinctTriples (applyStoreCalls w calls).memories ∧
    ∀ u k t now, (liveRowsOf (applyStoreCalls w calls).memories u k t now).length ≤ 1 := by
  have hd := distinctTriples_applyStoreCalls calls w h
  exact ⟨hd, fun u k t now => length_liveRowsOf_le_one _ hd u k t now⟩

/-- C6 witness: two upserts on a one-row table keep every triple
singly-live. -/
theorem storeMemory_upsert_invariant_witness :
    distinctTriples worldC10.memories ∧
    (liveRowsOf (applyStoreCalls worldC10
        [{ userId := "u", key := "k", value := "x", type := "general", expiresAt := none },
         { userId := "u", key := "k2", value := "y", type := "general", expiresAt := none }]).memories
      "u" "k" "general" 99).length ≤ 1 :=
  ⟨by decide,
   (storeMemory_upsert_invariant worldC10
      [{ userId := "u", key := "k", value := "x", type := "general", expiresAt := none },
       { userId := "u", key := "k2", value := "y", type := "general", expiresAt := none }]
      (by decide)).2 "u" "k" "general" 99⟩

/-- C6 counterexample: the claim's precondition — at most one LIVE
memory per triple — admits a table with an expired row and a live row
sharing a triple; one upsert with a future expiry revives the expired
row via the liveness-blind `findFirst`, leaving two live rows. -/
theorem storeMemory_revives_expired_duplicate :
    (liveRowsOf worldC6.memories "u" "k" "general" 10).length ≤ 1 ∧
    (liveRowsOf (storeMemory worldC6 "u" "k" "c" "general" (some 100)).2.memories
      "u" "k" "general" 10).length = 2 := by decide

/-- C2 counterexample: a memory with a generic/conversational type tag
satisfies the claim's any-of disjunction, yet `getRelevantMemories`
excludes it because a populated non-matching `activeModules` list
short-circuits the filter before the type-tag fallthrough. -/
theorem getRelevantMemories_cascade_not_anyOf :
    fetchRecentLive worldC2 "u" 10 = [memC2] ∧
    specRelevantAnyOf ctxC2 memC2 = true ∧
    getRelevantMemories worldC2 "u" ctxC2 10 = [] := by decide

/-- C2 (amended): `getRelevantMemories` is the recency fetch filtered by
the short-circuiting cascade `memRelevant` — current-task overlap
first; otherwise, when `activeModules` is populated, module overlap
alone decides; otherwise, when `recentTopics` is populated, topic
overlap alone decides; otherwise the generic type tags — truncated to
`limit`.  The result is an order-preserving sublist of the fetch of
length at most `limit` whose members all pass the cascade. -/
theorem getRelevantMemories_spec (w : World) (u : String)
    (context : ConversationContext) (limit : Nat) :
    getRelevantMemories w u context limit =
      ((fetchRecentLive w u limit).filter (memRelevant context)).take limit ∧
    (getRelevantMemories w u context limit).Sublist (fetchRecentLive w u limit) ∧
    (getRelevantMemories w u context limit).length ≤ limit ∧
    ∀ m ∈ getRelevantMemories w u context limit, memRelevant context m = true := by
  refine ⟨rfl, ?_, ?_, ?_⟩
  · exact (List.take_sublist _ _).trans (List.filter_sublist _)
  · simpa [getRelevantMemories] using
      List.length_take_le limit ((fetchRecentLive w u limit).filter (memRelevant context))
  · intro m hm
    unfold getRelevantMemories at hm
    exact List.of_mem_filter (List.mem_of_mem_take hm)

/-- Deleting a list of memories one by one is one filtered pass. -/
theorem foldl_deleteMemory (L : List Memory) (w : World) :
    L.foldl (fun acc m => deleteMemory acc m.id) w =
      { w with memories :=
          w.memories.filter fun m => !((L.map fun x => x.id).contains m.id) } := by
  induction L generalizing w with
  | nil => simp
  | cons x tl ih =>
    rw [List.foldl_cons, ih]
    unfold deleteMemory
    congr 1
    rw [List.filter_filter]
    apply List.filter_congr
    intro m hm
    by_cases hid : m.id = x.id <;> simp [hid]

/-- C1 (amended): `resetConversation` always reports success, never
touches the stored conversation messages, and deletes exactly the
`"conversation"`-typed rows among the (at most ten) most recently
updated non-expired memories that pass the empty-context relevance
filter — nothing else. -/
theorem resetConversation_scope (w : World) (u : String) :
    (resetConversation w u).1 = true ∧
    (resetConversation w u).2.conversations = w.conversations ∧
    (resetConversation w u).2.memories =
      w.memories.filter fun m =>
        !((((getRelevantMemories w u (emptyContext u) 10).filter
            (fun x => x.type == "conversation")).map fun x => x.id).contains m.id) := by
  simp only [resetConversation]
  rw [foldl_deleteMemory]
  exact ⟨trivial, rfl, rfl⟩

/-- C1 counterexample: on a world with one (expired) conversation-typed
memory and one stored message, `resetConversation` reports success yet
deletes nothing: the message — and even a conversation memory — survive,
contradicting the claimed full deletion. -/
theorem resetConversation_leaves_messages :
    (resetConversation worldC1 "u").1 = true ∧
    (resetConversation worldC1 "u").2 = worldC1 ∧
    worldC1.conversations ≠ [] ∧
    worldC1.memories.filter (fun m => m.type == "conversation") ≠ [] := by decide

/-- C7 counterexample: an override scalar that is present but empty is
skipped by the truthiness check — the default survives, contrary to the
claim that present scalar fields fully replace. -/
theorem mergePrompts_empty_string_ignored :
    ({ systemPrompt := some "" } : PromptOverride).systemPrompt = some "" ∧
    (mergePrompts { systemPrompt := some "x" }
      { systemPrompt := some "" }).systemPrompt = some "x" := by decide

/-- Scalar projection of the merge. -/
theorem mergePrompts_systemPrompt (d : PromptRecord) (o : PromptOverride) :
    (mergePrompts d o).systemPrompt =
      if truthyStr o.systemPrompt then o.systemPrompt else d.systemPrompt := by
  simp only [mergePrompts]
  split_ifs <;> cases hmp : o.modulePrompts <;> cases hst : o.style <;> simp [*]

/-- Scalar projection of the merge. -/
theorem mergePrompts_taskPrompt (d : PromptRecord) (o : PromptOverride) :
    (mergePrompts d o).taskPrompt =
      if truthyStr o.taskPrompt then o.taskPrompt else d.taskPrompt := by
  simp only [mergePrompts]
  split_ifs <;> cases hmp : o.modulePrompts <;> cases hst : o.style <;> simp [*]

/-- Module-map projection of the merge. -/
theorem mergePrompts_modulePrompts (d : PromptRecord) (o : PromptOverride) :
    (mergePrompts d o).modulePrompts =
      match o.modulePrompts with
      | some mp => some (jsSpread (d.modulePrompts.getD []) mp)
      | none => d.modulePrompts := by
  simp only [mergePrompts]
  split_ifs <;> cases hmp : o.modulePrompts <;> cases hst : o.style <;> simp [*]

/-- Style projection of the merge. -/
theorem mergePrompts_style (d : PromptRecord) (o : PromptOverride) :
    (mergePrompts d o).style =
      match o.style with
      | some st => some (mergeStyle (d.style.getD {}) st)
      | none => d.style := by
  simp only [mergePrompts]
  split_ifs <;> cases hmp : o.modulePrompts <;> cases hst : o.style <;> simp [*]

/-- C7 (amended): `mergePrompts` is a shallow field-wise override where
a present non-empty scalar replaces the default, a present empty-string
scalar is ignored (JS truthiness), `modulePrompts` merges key-by-key
with override keys winning and unmentioned default keys surviving,
`style` merges field-by-field, and the empty override is the
identity. -/
theorem mergePrompts_shallow (d : PromptRecord) (o : PromptOverride) :
    mergePrompts d {} = d ∧
    (∀ s, o.systemPrompt = some s → s ≠ "" → (mergePrompts d o).systemPrompt = some s) ∧
    (o.systemPrompt = some "" → (mergePrompts d o).systemPrompt = d.systemPrompt) ∧
    (∀ s, o.taskPrompt = some s → s ≠ "" → (mergePrompts d o).taskPrompt = some s) ∧
    (o.taskPrompt = some "" → (mergePrompts d o).taskPrompt = d.taskPrompt) ∧
    (∀ mp, o.modulePrompts = some mp → keysNodup mp →
      ∀ k, mapGet ((mergePrompts d o).modulePrompts.getD []) k =
        optOr (mapGet mp k) (mapGet (d.modulePrompts.getD []) k)) ∧
    (∀ st, o.style = some st →
      (mergePrompts d o).style = some (mergeStyle (d.style.getD {}) st)) := by
  refine ⟨?_, ?_, ?_, ?_, ?_, ?_, ?_⟩
  · simp [mergePrompts, truthyStr]
  · intro s hs hne
    rw [mergePrompts_systemPrompt, hs]
    simp [truthyStr, hne]
  · intro hs
    rw [mergePrompts_systemPrompt, hs]
    simp [truthyStr]
  · intro s hs hne
    rw [mergePrompts_taskPrompt, hs]
    simp [truthyStr, hne]
  · intro hs
    rw [mergePrompts_taskPrompt, hs]
    simp [truthyStr]
  · intro mp hmp hnod k
    rw [mergePrompts_modulePrompts, hmp]
    simpa using mapGet_spread mp hnod (d.modulePrompts.getD []) k
  · intro st hst
    rw [mergePrompts_style, hst]

/-- C7 witness: the spec's own example — override replaces `m1`, keeps
`m2` and the scalar — plus identity on the empty override. -/
theorem mergePrompts_shallow_witness :
    mergePrompts dFix {} = dFix ∧
    mapGet ((mergePrompts dFix oFix).modulePrompts.getD []) "m1" = some "p1-new" ∧
    mapGet ((mergePrompts dFix oFix).modulePrompts.getD []) "m2" = some "p2" ∧
    (mergePrompts dFix oFix).systemPrompt = some "x" := by
  refine ⟨(mergePrompts_shallow dFix oFix).1, ?_, ?_, by decide⟩
  · rw [(mergePrompts_shallow dFix oFix).2.2.2.2.2.1 [("m1", "p1-new")] rfl
      (by decide) "m1"]
    decide
  · rw [(mergePrompts_shallow dFix oFix).2.2.2.2.2.1 [("m1", "p1-new")] rfl
      (by decide) "m2"]
    decide

/-- A module name whose fragment file is missing never enters the
resolution fold. -/
theorem containsKey_resolveFold_missing (fs : FileStore) (name : String)
    (h : fs ("modules/" ++ name ++ ".json") = none) :
    ∀ (ams : List String) (acc : ModMap), containsKey acc name = false →
      containsKey (ams.foldl (resolveStep fs) acc) name = false := by
  intro ams
  induction ams with
  | nil => intro acc hacc; simpa using hacc
  | cons mn tl ih =>
    intro acc hacc
    rw [List.foldl_cons]
    apply ih
    unfold resolveStep
    cases hf : fs ("modules/" ++ mn ++ ".json") with
    | none => rw [resolveStepFile]; exact hacc
    | some f =>
      rw [resolveStepFile]
      cases hp : f.modulePrompt with
      | none => rw [resolveStepPrompt]; exact hacc
      | some p =>
        rw [resolveStepPrompt]
        by_cases hpe : p ≠ ""
        · rw [if_pos hpe, containsKey_set]
          have hmn : name ≠ mn := by
            intro hcx
            subst hcx
            rw [hf] at h
            exact Option.noConfusion h
          rw [if_neg hmn]
          exact hacc
        · rw [if_neg hpe]
          exact hacc

/-- `buildPrompt` succeeds when the two base files exist, producing the
joined parts computed from the merged configuration. -/
theorem buildPrompt_ok (fs : FileStore) (userMessage : String)
    (context : ConversationContext) (memory : String)
    (overrides : Option PromptOverride) (f1 f2 : PromptFile)
    (h1 : fs "system.json" = some f1) (h2 : fs "tasks.json" = some f2) :
    buildPrompt fs userMessage context memory overrides =
      Except.ok (String.intercalate "\n\n"
        (["[System] " ++ jsTemplate ((buildPromptConfig fs context overrides f1 f2).systemPrompt),
          "[System] " ++ jsTemplate ((buildPromptConfig fs context overrides f1 f2).taskPrompt)]
         ++ ((buildPromptConfig fs context overrides f1 f2).modulePrompts.getD []).map
             (fun p => "[System] Module: " ++ p.1 ++ " → " ++ p.2)
         ++ (if jsTrim memory ≠ "" then ["[System] Memory: " ++ memory] else [])
         ++ ["[User] " ++ userMessage])) := by
  unfold buildPrompt loadPrompt buildPromptConfig
  rw [h1, h2]
  rfl

/-- The final module map is the resolved modules spread under the
override's module map. -/
theorem buildPromptConfig_modulePrompts (fs : FileStore)
    (context : ConversationContext) (overrides : Option PromptOverride)
    (f1 f2 : PromptFile) :
    (buildPromptConfig fs context overrides f1 f2).modulePrompts.getD [] =
      jsSpread (resolveModulePrompts fs (context.activeModules.getD []))
        (overrideModMap overrides) := by
  cases ho : overrides with
  | none => rfl
  | some o =>
    simp only [buildPromptConfig, overrideModMap, mergePrompts_modulePrompts]
    cases o.modulePrompts <;> simp [jsSpread]

/-- C8 (amended): with the two base files present and a duplicate-free
override module map, `buildPrompt` yields exactly the block sequence
system, task, one block per module entry, an optional memory block, and
the user block.  The module entries are the modules resolved in
`activeModules` order (missing fragment files contribute no key),
followed by override-only module keys in override order; per key the
override value wins.  The memory block appears only when the digest is
non-empty after trimming. -/
theorem buildPrompt_block_structure (fs : FileStore) (userMessage : String)
    (context : ConversationContext) (memory : String)
    (overrides : Option PromptOverride) (f1 f2 : PromptFile)
    (h1 : fs "system.json" = some f1) (h2 : fs "tasks.json" = some f2)
    (hnod : keysNodup (overrideModMap overrides)) :
    ∃ sysText taskText entries,
      buildPrompt fs userMessage context memory overrides =
        Except.ok (String.intercalate "\n\n"
          (["[System] " ++ sysText, "[System] " ++ taskText]
           ++ entries.map (fun p => "[System] Module: " ++ p.1 ++ " → " ++ p.2)
           ++ (if jsTrim memory ≠ "" then ["[System] Memory: " ++ memory] else [])
           ++ ["[User] " ++ userMessage])) ∧
      mapKeys entries =
        mapKeys (resolveModulePrompts fs (context.activeModules.getD []))
          ++ (mapKeys (overrideModMap overrides)).filter
              (fun k => !containsKey
                (resolveModulePrompts fs (context.activeModules.getD [])) k) ∧
      (∀ k, mapGet entries k =
        optOr (mapGet (overrideModMap overrides) k)
          (mapGet (resolveModulePrompts fs (context.activeModules.getD [])) k)) ∧
      (∀ name, fs ("modules/" ++ name ++ ".json") = none →
        containsKey (resolveModulePrompts fs (context.activeModules.getD []))
          name = false) := by
  refine ⟨jsTemplate ((buildPromptConfig fs context overrides f1 f2).systemPrompt),
    jsTemplate ((buildPromptConfig fs context overrides f1 f2).taskPrompt),
    (buildPromptConfig fs context overrides f1 f2).modulePrompts.getD [],
    buildPrompt_ok fs userMessage context memory overrides f1 f2 h1 h2, ?_, ?_, ?_⟩
  · rw [buildPromptConfig_modulePrompts]
    exact mapKeys_spread _ hnod _
  · intro k
    rw [buildPromptConfig_modulePrompts]
    exact mapGet_spread _ hnod _ k
  · intro name hmiss
    exact containsKey_resolveFold_missing fs name hmiss _ [] rfl

/-- C8 counterexample: a whitespace-only digest is a non-empty string,
yet no memory block is emitted — the emission test is truthiness after
`trim()`, not non-emptiness. -/
theorem buildPrompt_whitespace_digest :
    buildPrompt fsC8 "hi" (emptyContext "u") " " none =
      Except.ok "[System] S\n\n[System] T\n\n[User] hi" ∧
    (" " : String) ≠ "" := by
  constructor
  · rfl
  · decide

/-- `getMemory`'s optional-type filter with a given type is the triple
filter. -/
theorem memMatch_some_eq (u k t : String) :
    memMatch u k (some t) = tripleMatch u k t := rfl

/-- A truthy optional string is `some` of its default-read. -/
theorem getD_of_truthyStr (o : Option String) (h : truthyStr o = true) :
    some (o.getD "") = o := by
  cases o with
  | none => simp [truthyStr] at h
  | some s => rfl

/-- A truthy optional list is `some` of its default-read. -/
theorem getD_of_truthyList (o : Option (List String)) (h : truthyList o = true) :
    some (o.getD []) = o := by
  cases o with
  | none => simp [truthyList] at h
  | some l => rfl

/-- Effect of one guarded context write on the per-key triple filter:
a fresh write appends exactly its own row; every other key's filter is
untouched. -/
theorem condStoreStep_filter (w : World) (u k : String) (cond : Bool)
    (v k' : String)
    (hfresh : w.memories.filter (tripleMatch u k "conversation") = []) :
    (condStoreStep u k cond v w).memories.filter (tripleMatch u k' "conversation") =
      if cond ∧ k = k' then
        [{ id := w.nextId, userId := u, key := k, value := v, type := "conversation",
           expiresAt := none, createdAt := w.clock, updatedAt := w.clock }]
      else w.memories.filter (tripleMatch u k' "conversation") := by
  unfold condStoreStep
  by_cases hc : cond = true
  · rw [if_pos hc]
    rw [storeMemory_create_eq w u k v "conversation" none (by rw [hfresh]; rfl)]
    rw [List.filter_append]
    by_cases hkk : k = k'
    · subst hkk
      rw [if_pos ⟨hc, rfl⟩, hfresh]
      simp [tripleMatch]
    · have hrow : tripleMatch u k' "conversation"
          { id := w.nextId, userId := u, key := k, value := v, type := "conversation",
            expiresAt := none, createdAt := w.clock, updatedAt := w.clock } = false := by
        simp [tripleMatch, hkk]
      rw [if_neg (fun hx => hkk hx.2)]
      simp [hrow]
  · rw [if_neg hc, if_neg (fun hx => hc hx.1)]

set_option maxHeartbeats 2000000 in
/-- C9 (amended): when the user has no pre-existing
`"conversation"`-typed rows, storing a context and reading it back
returns exactly the stored context restricted to its truthy fields —
scalars as stored, the two list fields surviving the JSON round trip —
and the read performs no writes. -/
theorem storeGet_context_roundtrip (w : World) (u : String)
    (c : ConversationContext)
    (hclean : w.memories.filter
      (fun m => m.userId == u && m.type == "conversation") = []) :
    (getConversationContext (storeConversationContext w u c) u).1 =
      normalizeContext u c ∧
    (getConversationContext (storeConversationContext w u c) u).2 =
      storeConversationContext w u c := by
  have f0 : ∀ k', w.memories.filter (tripleMatch u k' "conversation") = [] := by
    intro k'
    rw [List.filter_eq_nil_iff]
    intro m hm hcm
    have hbroad := List.filter_eq_nil_iff.mp hclean m hm
    simp only [tripleMatch, Bool.and_eq_true, beq_iff_eq] at hcm
    exact hbroad (by simp [hcm.1.1, hcm.2])
  set W1 := condStoreStep u "current_task" (truthyStr c.currentTask)
    (c.currentTask.getD "") w with hW1
  set W2 := condStoreStep u "current_mood" (truthyStr c.mood)
    (c.mood.getD "") W1 with hW2
  set W3 := condStoreStep u "current_energy" (truthyStr c.energy)
    (c.energy.getD "") W2 with hW3
  set W4 := condStoreStep u "recent_topics" (truthyList c.recentTopics)
    (jsonStringifyList (c.recentTopics.getD [])) W3 with hW4
  set W5 := condStoreStep u "active_modules" (truthyList c.activeModules)
    (jsonStringifyList (c.activeModules.getD [])) W4 with hW5
  have hsc : storeConversationContext w u c = W5 := rfl
  have fr1 : ∀ k', k' ≠ "current_task" →
      W1.memories.filter (tripleMatch u k' "conversation") = [] := by
    intro k' hk
    rw [hW1, condStoreStep_filter w u "current_task" _ _ k' (f0 "current_task")]
    rw [if_neg (fun hx => hk hx.2.symm)]
    exact f0 k'
  have fr2 : ∀ k', k' ≠ "current_task" → k' ≠ "current_mood" →
      W2.memories.filter (tripleMatch u k' "conversation") = [] := by
    intro k' hk1 hk2
    rw [hW2, condStoreStep_filter W1 u "current_mood" _ _ k'
      (fr1 "current_mood" (by decide))]
    rw [if_neg (fun hx => hk2 hx.2.symm)]
    exact fr1 k' hk1
  have fr3 : ∀ k', k' ≠ "current_task" → k' ≠ "current_mood" →
      k' ≠ "current_energy" →
      W3.memories.filter (tripleMatch u k' "conversation") = [] := by
    intro k' hk1 hk2 hk3
    rw [hW3, condStoreStep_filter W2 u "current_energy" _ _ k'
      (fr2 "current_energy" (by decide) (by decide))]
    rw [if_neg (fun hx => hk3 hx.2.symm)]
    exact fr2 k' hk1 hk2
  have fr4 : ∀ k', k' ≠ "current_task" → k' ≠ "current_mood" →
      k' ≠ "current_energy" → k' ≠ "recent_topics" →
      W4.memories.filter (tripleMatch u k' "conversation") = [] := by
    intro k' hk1 hk2 hk3 hk4
    rw [hW4, condStoreStep_filter W3 u "recent_topics" _ _ k'
      (fr3 "recent_topics" (by decide) (by decide) (by decide))]
    rw [if_neg (fun hx => hk4 hx.2.symm)]
    exact fr3 k' hk1 hk2 hk3
  have sel1 : W5.memories.filter (tripleMatch u "current_task" "conversation") =
      if truthyStr c.currentTask then
        [{ id := w.nextId, userId := u, key := "current_task",
           value := c.currentTask.getD "", type := "conversation",
           expiresAt := none, createdAt := w.clock, updatedAt := w.clock }]
      else [] := by
    rw [hW5, condStoreStep_filter W4 u "active_modules" _ _ _
      (fr4 "active_modules" (by decide) (by decide) (by decide) (by decide))]
    rw [if_neg (fun hx => by exact absurd hx.2 (by decide))]
    rw [hW4, condStoreStep_filter W3 u "recent_topics" _ _ _
      (fr3 "recent_topics" (by decide) (by decide) (by decide))]
    rw [if_neg (fun hx => by exact absurd hx.2 (by decide))]
    rw [hW3, condStoreStep_filter W2 u "current_energy" _ _ _
      (fr2 "current_energy" (by decide) (by decide))]
    rw [if_neg (fun hx => by exact absurd hx.2 (by decide))]
    rw [hW2, condStoreStep_filter W1 u "current_mood" _ _ _
      (fr1 "current_mood" (by decide))]
    rw [if_neg (fun hx => by exact absurd hx.2 (by decide))]
    rw [hW1, condStoreStep_filter w u "current_task" _ _ _ (f0 "current_task")]
    by_cases h1 : truthyStr c.currentTask = true
    · rw [if_pos ⟨h1, rfl⟩, if_pos h1]
    · rw [if_neg (fun hx => h1 hx.1), if_neg h1]
      exact f0 "current_task"
  have sel2 : W5.memories.filter (tripleMatch u "current_mood" "conversation") =
      if truthyStr c.mood then
        [{ id := W1.nextId, userId := u, key := "current_mood",
           value := c.mood.getD "", type := "conversation",
           expiresAt := none, createdAt := W1.clock, updatedAt := W1.clock }]
      else [] := by
    rw [hW5, condStoreStep_filter W4 u "active_modules" _ _ _
      (fr4 "active_modules" (by decide) (by decide) (by decide) (by decide))]
    rw [if_neg (fun hx => by exact absurd hx.2 (by decide))]
    rw [hW4, condStoreStep_filter W3 u "recent_topics" _ _ _
      (fr3 "recent_topics" (by decide) (by decide) (by decide))]
    rw [if_neg (fun hx => by exact absurd hx.2 (by decide))]
    rw [hW3, condStoreStep_filter W2 u "current_energy" _ _ _
      (fr2 "current_energy" (by decide) (by decide))]
    rw [if_neg (fun hx => by exact absurd hx.2 (by decide))]
    rw [hW2, condStoreStep_filter W1 u "current_mood" _ _ _
      (fr1 "current_mood" (by decide))]
    by_cases h2 : truthyStr c.mood = true
    · rw [if_pos ⟨h2, rfl⟩, if_pos h2]
    · rw [if_neg (fun hx => h2 hx.1), if_neg h2]
      exact fr1 "current_mood" (by decide)
  have sel3 : W5.memories.filter (tripleMatch u "current_energy" "conversation") =
      if truthyStr c.energy then
        [{ id := W2.nextId, userId := u, key := "current_energy",
           value := c.energy.getD "", type := "conversation",
           expiresAt := none, createdAt := W2.clock, updatedAt := W2.clock }]
      else [] := by
    rw [hW5, condStoreStep_filter W4 u "active_modules" _ _ _
      (fr4 "active_modules" (by decide) (by decide) (by decide) (by decide))]
    rw [if_neg (fun hx => by exact absurd hx.2 (by decide))]
    rw [hW4, condStoreStep_filter W3 u "recent_topics" _ _ _
      (fr3 "recent_topics" (by decide) (by decide) (by decide))]
    rw [if_neg (fun hx => by exact absurd hx.2 (by decide))]
    rw [hW3, condStoreStep_filter W2 u "current_energy" _ _ _
      (fr2 "current_energy" (by decide) (by decide))]
    by_cases h3 : truthyStr c.energy = true
    · rw [if_pos ⟨h3, rfl⟩, if_pos h3]
    · rw [if_neg (fun hx => h3 hx.1), if_neg h3]
      exact fr2 "current_energy" (by decide) (by decide)
  have sel4 : W5.memories.filter (tripleMatch u "recent_topics" "conversation") =
      if truthyList c.recentTopics then
        [{ id := W3.nextId, userId := u, key := "recent_topics",
           value := jsonStringifyList (c.recentTopics.getD []),
           type := "conversation",
           expiresAt := none, createdAt := W3.clock, updatedAt := W3.clock }]
      else [] := by
    rw [hW5, condStoreStep_filter W4 u "active_modules" _ _ _
      (fr4 "active_modules" (by decide) (by decide) (by decide) (by decide))]
    rw [if_neg (fun hx => by exact absurd hx.2 (by decide))]
    rw [hW4, condStoreStep_filter W3 u "recent_topics" _ _ _
      (fr3 "recent_topics" (by decide) (by decide) (by decide))]
    by_cases h4 : truthyList c.recentTopics = true
    · rw [if_pos ⟨h4, rfl⟩, if_pos h4]
    · rw [if_neg (fun hx => h4 hx.1), if_neg h4]
      exact fr3 "recent_topics" (by decide) (by decide) (by decide)
  have sel5 : W5.memories.filter (tripleMatch u "active_modules" "conversation") =
      if truthyList c.activeModules then
        [{ id := W4.nextId, userId := u, key := "active_modules",
           value := jsonStringifyList (c.activeModules.getD []),
           type := "conversation",
           expiresAt := none, createdAt := W4.clock, updatedAt := W4.clock }]
      else [] := by
    rw [hW5, condStoreStep_filter W4 u "active_modules" _ _ _
      (fr4 "active_modules" (by decide) (by decide) (by decide) (by decide))]
    by_cases h5 : truthyList c.activeModules = true
    · rw [if_pos ⟨h5, rfl⟩, if_pos h5]
    · rw [if_neg (fun hx => h5 hx.1), if_neg h5]
      exact fr4 "active_modules" (by decide) (by decide) (by decide) (by decide)
  rw [hsc]
  by_cases h1 : truthyStr c.currentTask = true <;>
    by_cases h2 : truthyStr c.mood = true <;>
      by_cases h3 : truthyStr c.energy = true <;>
        by_cases h4 : truthyList c.recentTopics = true <;>
          by_cases h5 : truthyList c.activeModules = true <;>
            simp [getConversationContext, getMemory, memMatch_some_eq,
              sel1, sel2, sel3, sel4, sel5, h1, h2, h3, h4, h5,
              sortByUpdatedDesc, insertUpdatedDesc, jsonParseList_stringify,
              normalizeContext, getD_of_truthyStr, getD_of_truthyList] <;>
            cases hcr : c.recentTopics <;> cases hca : c.activeModules <;>
              simp_all [truthyList]

/-- C9 counterexample: over an arbitrary store the claim fails — a
pre-existing `"conversation"` row for a field the stored context leaves
unpopulated is read back, so the result is not equivalent to the stored
context (it has an extra populated field). -/
theorem storeGet_context_not_roundtrip :
    ({ userId := "u", currentTask := some "report" } : ConversationContext).mood
      = none ∧
    (getConversationContext (storeConversationContext worldC9 "u"
        { userId := "u", currentTask := some "report" }) "u").1.mood
      = some "happy" := by decide

/-- C9 witness: round trip of the fixture context over a fresh store. -/
theorem storeGet_context_roundtrip_witness :
    (getConversationContext (storeConversationContext wFresh "u" cFix) "u").1 =
      normalizeContext "u" cFix :=
  (storeGet_context_roundtrip wFresh "u" cFix (by decide)).1

/-- C8 witness: the block structure at a concrete store, message and
digest, with no overrides. -/
theorem buildPrompt_block_structure_witness :
    ∃ sysText taskText entries,
      buildPrompt fsC8 "hi" (emptyContext "u") "digest" none =
        Except.ok (String.intercalate "\n\n"
          (["[System] " ++ sysText, "[System] " ++ taskText]
           ++ entries.map (fun p => "[System] Module: " ++ p.1 ++ " → " ++ p.2)
           ++ (if jsTrim "digest" ≠ "" then ["[System] Memory: " ++ "digest"] else [])
           ++ ["[User] " ++ "hi"])) ∧
      mapKeys entries =
        mapKeys (resolveModulePrompts fsC8 ((emptyContext "u").activeModules.getD []))
          ++ (mapKeys (overrideModMap none)).filter
              (fun k => !containsKey
                (resolveModulePrompts fsC8 ((emptyContext "u").activeModules.getD [])) k) ∧
      (∀ k, mapGet entries k =
        optOr (mapGet (overrideModMap none) k)
          (mapGet (resolveModulePrompts fsC8 ((emptyContext "u").activeModules.getD [])) k)) ∧
      (∀ name, fsC8 ("modules/" ++ name ++ ".json") = none →
        containsKey (resolveModulePrompts fsC8 ((emptyContext "u").activeModules.getD []))
          name = false) :=
  buildPrompt_block_structure fsC8 "hi" (emptyContext "u") "digest" none
    { systemPrompt := some "S" } { taskPrompt := some "T" } rfl rfl (by decide)
